import Mathlib

/-
Verification development for the kodi-subtitle-translator core.

The Python sources are shallowly embedded: strings are lists of
characters, bytes are lists of naturals, machine integers are Nat/Int
(Python integers are unbounded, so no wrap-around is modelled), and
fallible code returns Option/Except.  Python float comparisons against
the literals 0.5 and 0.95 are modelled as exact rational comparisons
on the integer counters; a divergence from IEEE doubles would need
denominators around 10^16, far beyond any subtitle file.
-/

namespace KST

/-- A Python `str` value, modelled as its list of characters. -/
abbrev Str := List Char

/-- The characters Python's `str.strip` / `str.split` treat as whitespace,
restricted to ASCII: on ASCII strings this is exactly Python's behaviour,
while Python additionally treats some non-ASCII code points (U+00A0, …) as
whitespace.  Theorems whose fidelity depends on this equivalence therefore
carry an all-ASCII hypothesis on the text. -/
def pySpace (c : Char) : Bool :=
  c = ' ' || c = '\t' || c = '\n' || c = '\r' || c = '\x0b' || c = '\x0c'

/-- Python `str.lstrip()`. -/
def lstrip (s : Str) : Str := s.dropWhile pySpace

/-- Python `str.rstrip()`. -/
def rstrip (s : Str) : Str := (s.reverse.dropWhile pySpace).reverse

/-- Python `str.strip()`. -/
def strip (s : Str) : Str := rstrip (lstrip s)

/-- Python `sep.join(parts)` for a one-character separator, and `'\n'.join`. -/
def joinWith (sep : Char) : List Str → Str
  | [] => []
  | [s] => s
  | s :: rest => s ++ sep :: joinWith sep rest

/-- Python `s.split(sep)` for a one-character separator (keeps empty pieces). -/
def splitChar (sep : Char) : Str → List Str
  | [] => [[]]
  | c :: rest =>
    if c = sep then [] :: splitChar sep rest
    else
      match splitChar sep rest with
      | [] => [[c]]
      | p :: ps => (c :: p) :: ps

/-- The scan behind Python `s.split()` with no arguments: `acc` is the
current token, reversed; whitespace closes it. -/
def pySplitWsGo : Str → Str → List Str
  | acc, [] => if acc.isEmpty then [] else [acc.reverse]
  | acc, c :: rest =>
    if pySpace c then
      if acc.isEmpty then pySplitWsGo [] rest else acc.reverse :: pySplitWsGo [] rest
    else pySplitWsGo (c :: acc) rest

/-- Python `s.split()` with no arguments: split on whitespace runs, dropping empties. -/
def pySplitWs (s : Str) : List Str := pySplitWsGo [] s

/-- Whether `pre` starts `s` (Python `str.startswith`). -/
def startsWithL : Str → Str → Bool
  | [], _ => true
  | _, [] => false
  | c :: cs, d :: ds => c = d && startsWithL cs ds

/-- Python `needle in hay` on strings. -/
def containsSub (needle : Str) (hay : Str) : Bool :=
  startsWithL needle hay ||
    match hay with
    | [] => false
    | _ :: t => containsSub needle t

/-- Python `str.lower()` (ASCII case mapping, all the code ever lowers). -/
def lowerStr (s : Str) : Str := s.map Char.toLower

/-- Numeric value of a decimal digit character. -/
def digitVal (c : Char) : Nat := c.toNat - 48

/-- Decimal digit character for `n < 10`. -/
def digitChar (n : Nat) : Char := Char.ofNat (48 + n)

/-- Value of a string of decimal digits. -/
def digitsToNat (ds : Str) : Nat := ds.foldl (fun a c => 10 * a + digitVal c) 0

/-- Python `int(s)` restricted to unsigned digit strings; `none` models ValueError. -/
def pyNat? (s : Str) : Option Nat :=
  if s.isEmpty then none
  else if s.all Char.isDigit then some (digitsToNat s) else none

/-- Python `int(s)` on an already-stripped string: optional sign, then digits. -/
def pyInt? (s : Str) : Option Int :=
  match s with
  | [] => none
  | c :: rest =>
    if c = '-' then (pyNat? rest).map (fun n : Nat => -(n : Int))
    else if c = '+' then (pyNat? rest).map (fun n : Nat => (n : Int))
    else (pyNat? (c :: rest)).map (fun n : Nat => (n : Int))

/-- Decimal digits, most significant first; the fuel only bounds the
recursion depth and any fuel at least the digit count gives the value. -/
def natReprGo : Nat → Nat → Str
  | 0, n => [digitChar n]
  | fuel + 1, n =>
    if n < 10 then [digitChar n] else natReprGo fuel (n / 10) ++ [digitChar (n % 10)]

/-- Decimal representation of a natural number (Python `str(n)` for `n ≥ 0`). -/
def natRepr (n : Nat) : Str := natReprGo n n

/-- Python `str(i)` for an `int`. -/
def intRepr (i : Int) : Str :=
  if i < 0 then '-' :: natRepr i.natAbs else natRepr i.toNat

/-- Left-pad with zeros to width `w` (Python `f"{n:0wd}"`). -/
def padZeros (w : Nat) (s : Str) : Str := List.replicate (w - s.length) '0' ++ s

/-- Python `f"{n:02d}"`. -/
def fmt02 (n : Nat) : Str := padZeros 2 (natRepr n)

/-- Python `f"{n:03d}"`. -/
def fmt03 (n : Nat) : Str := padZeros 3 (natRepr n)

/-! ### `lib/subtitle_parser.py` -/

/-- A subtitle entry: the dict built by `SubtitleParser` with keys
`index`, `start`, `end`, `text` and (for ASS only) `style`.  The Python
key `end` is a Lean keyword, hence the field name `stop`. -/
structure Entry where
  index : Int
  start : Nat
  stop : Nat
  text : Str
  style : Option Str
deriving Repr, DecidableEq

/-- Renumber entries consecutively from `i + 1` (the Python patterns
`entry['index'] = len(entries) + 1` and
`for i, d in enumerate(...): d['index'] = i + 1`). -/
def numberFrom (i : Nat) : List Entry → List Entry
  | [] => []
  | e :: es => { e with index := (i : Int) + 1 } :: numberFrom (i + 1) es

/-- Fuelled scan behind `html.unescape`; fuel at least the length gives the
library behaviour. -/
def unescapeGo : Nat → Str → Str
  | _, [] => []
  | 0, s => s
  | fuel + 1, c :: rest =>
    if c = '&' then
      if startsWithL ("amp;".toList) rest then '&' :: unescapeGo fuel (rest.drop 4)
      else if startsWithL ("lt;".toList) rest then '<' :: unescapeGo fuel (rest.drop 3)
      else if startsWithL ("gt;".toList) rest then '>' :: unescapeGo fuel (rest.drop 3)
      else if startsWithL ("quot;".toList) rest then '"' :: unescapeGo fuel (rest.drop 5)
      else if startsWithL ("#39;".toList) rest then '\'' :: unescapeGo fuel (rest.drop 4)
      else if startsWithL ("nbsp;".toList) rest then '\xa0' :: unescapeGo fuel (rest.drop 5)
      else '&' :: unescapeGo fuel rest
    else c :: unescapeGo fuel rest

/-- `html.unescape`, modelled for the entity forms subtitle files use.
The library decodes every named and numeric character reference, which
this scan does not; the two agree on strings without `&`, where
`html.unescape` returns its input unchanged (its `if '&' not in s` fast
path).  Theorems whose fidelity depends on this equivalence therefore
exclude `&` from the text. -/
def unescape (s : Str) : Str := unescapeGo s.length s

/-- Fuelled scan for `re.sub(r'<[^>]+>', '', text)`; any fuel at least the
input length gives the regex behaviour. -/
def removeTagsGo : Nat → Str → Str
  | _, [] => []
  | 0, s => s
  | fuel + 1, '<' :: rest =>
    let run := rest.takeWhile (fun x => x ≠ '>')
    let after := rest.drop run.length
    if run.isEmpty || after.isEmpty then '<' :: removeTagsGo fuel rest
    else removeTagsGo fuel (after.drop 1)
  | fuel + 1, c :: rest => c :: removeTagsGo fuel rest

/-- `re.sub(r'<[^>]+>', '', text)`: drop every `<`…`>` tag with a nonempty body. -/
def removeTags (s : Str) : Str := removeTagsGo s.length s

/-- `SubtitleParser._clean_text`: decode entities, strip tags, collapse
whitespace runs to single spaces, trim. -/
def cleanText (text : Str) : Str :=
  strip (joinWith ' ' (pySplitWs (removeTags (unescape text))))

/-- `SubtitleParser._format_vtt_time` (dot decimal). -/
def format_vtt_time (ms : Nat) : Str :=
  fmt02 (ms / 3600000) ++ [':'] ++ fmt02 (ms % 3600000 / 60000) ++ [':'] ++
    fmt02 (ms % 60000 / 1000) ++ ['.'] ++ fmt03 (ms % 1000)

/-- Match `\d{2}:\d{2}:\d{2}[,.]\d{3}` at the head of `s`; return the
12-character group and the remaining input. -/
def matchTimePart (s : Str) : Option (Str × Str) :=
  match s with
  | a :: b :: c1 :: c :: d :: c2 :: e :: f :: sep :: g :: h :: i :: rest =>
    if a.isDigit && b.isDigit && c1 = ':' && c.isDigit && d.isDigit && c2 = ':' &&
       e.isDigit && f.isDigit && (sep = ',' || sep = '.') &&
       g.isDigit && h.isDigit && i.isDigit then
      some ([a, b, c1, c, d, c2, e, f, sep, g, h, i], rest)
    else none
  | _ => none

/-- `re.match(r'(\d{2}:\d{2}:\d{2}[,\.]\d{3})\s*-->\s*(\d{2}:\d{2}:\d{2}[,\.]\d{3})', line)`:
anchored at the start, trailing characters allowed. -/
def matchTimingLine (s : Str) : Option (Str × Str) := do
  let (g1, r1) ← matchTimePart s
  let r2 := r1.dropWhile pySpace
  match r2 with
  | '-' :: '-' :: '>' :: r3 =>
    let (g2, _) ← matchTimePart (r3.dropWhile pySpace)
    pure (g1, g2)
  | _ => none

/-- `SubtitleParser._parse_srt_time`: replace `,` by `.`, match
`(\d{2}):(\d{2}):(\d{2})\.(\d{3})`, else return 0. -/
def parse_srt_time_core (s : Str) : Nat :=
  match s with
  | a :: b :: c1 :: c :: d :: c2 :: e :: f :: dot :: g :: h :: i :: _ =>
    if a.isDigit && b.isDigit && c1 = ':' && c.isDigit && d.isDigit && c2 = ':' &&
       e.isDigit && f.isDigit && dot = '.' && g.isDigit && h.isDigit && i.isDigit then
      ((10 * digitVal a + digitVal b) * 3600 + (10 * digitVal c + digitVal d) * 60 +
        (10 * digitVal e + digitVal f)) * 1000 +
        (100 * digitVal g + 10 * digitVal h + digitVal i)
    else 0
  | _ => 0

def parse_srt_time (time_str : Str) : Nat :=
  parse_srt_time_core (time_str.map (fun c => if c = ',' then '.' else c))

/-- Prepend a character to the first piece of a split result. -/
def consHead (c : Char) : List Str → List Str
  | [] => [[c]]
  | p :: ps => (c :: p) :: ps

/-- The scan behind `re.split(r'\n\n+', s)`: in skipping mode the tail of
a matched newline run is being consumed. -/
def splitNNGo : Bool → Str → List Str
  | false, [] => [[]]
  | false, c :: rest =>
    if c = '\n' then
      match rest with
      | d :: rest' =>
        if d = '\n' then [] :: splitNNGo true rest'
        else consHead c (splitNNGo false (d :: rest'))
      | [] => [[c]]
    else consHead c (splitNNGo false rest)
  | true, [] => [[]]
  | true, c :: rest =>
    if c = '\n' then splitNNGo true rest else consHead c (splitNNGo false rest)

/-- `re.split(r'\n\n+', s)`: split on runs of two or more newlines. -/
def splitNN (s : Str) : List Str := splitNNGo false s

/-- One iteration of the `_parse_srt` block loop; `none` models both the
`len(lines) < 3` skip and the caught ValueError / failed timing match. -/
def parseSrtBlock (block : Str) : Option Entry := do
  let lines := splitChar '\n' (strip block)
  if lines.length < 3 then none
  else
    let index ← pyInt? (strip (lines.headD []))
    let gs ← matchTimingLine (strip (lines.getD 1 []))
    let text := cleanText (joinWith '\n' (lines.drop 2))
    pure ⟨index, parse_srt_time gs.1, parse_srt_time gs.2, text, none⟩

/-- `SubtitleParser._parse_srt`. -/
def parseSrt (content : Str) : List Entry :=
  (splitNN (strip content)).filterMap parseSrtBlock

/-- `SubtitleParser._parse_ass_time`: `(\d+):(\d{2}):(\d{2})\.(\d{2})`, else 0. -/
def parse_ass_time (time_str : Str) : Nat :=
  let s := strip time_str
  let hrs := s.takeWhile Char.isDigit
  match s.drop hrs.length with
  | c1 :: c :: d :: c2 :: e :: f :: dot :: g :: h :: _ =>
    if !hrs.isEmpty && c1 = ':' && c.isDigit && d.isDigit && c2 = ':' &&
       e.isDigit && f.isDigit && dot = '.' && g.isDigit && h.isDigit then
      (digitsToNat hrs * 3600 + (10 * digitVal c + digitVal d) * 60 +
        (10 * digitVal e + digitVal f)) * 1000 + (10 * digitVal g + digitVal h) * 10
    else 0
  | _ => 0

/-- Python `s.split(',', maxsplit)`. -/
def splitCommaMax : Nat → Str → List Str
  | 0, s => [s]
  | maxsplit + 1, s =>
    let piece := s.takeWhile (fun c => c ≠ ',')
    let rest := s.drop piece.length
    match rest with
    | [] => [s]
    | _ :: tail => piece :: splitCommaMax maxsplit tail

/-- Fuelled scan for `re.sub(r'\{[^}]*\}', '', text)` (brace-delimited ASS
override blocks, possibly empty body); fuel at least the length suffices. -/
def removeAssOverridesGo : Nat → Str → Str
  | _, [] => []
  | 0, s => s
  | fuel + 1, c :: rest =>
    if c = Char.ofNat 123 then
      let run := rest.takeWhile (fun x => x ≠ Char.ofNat 125)
      let after := rest.drop run.length
      if after.isEmpty then c :: removeAssOverridesGo fuel rest
      else removeAssOverridesGo fuel (after.drop 1)
    else c :: removeAssOverridesGo fuel rest

/-- `re.sub(r'\{[^}]*\}', '', text)`: drop ASS override blocks. -/
def removeAssOverrides (s : Str) : Str := removeAssOverridesGo s.length s

/-- Python `str.replace` of one two-character pattern by `'\n'`
(for `text.replace('\\N', '\n')` and `.replace('\\n', '\n')`). -/
def replaceEscNewline (second : Char) : Str → Str
  | [] => []
  | '\\' :: c :: rest =>
    if c = second then '\n' :: replaceEscNewline second rest
    else '\\' :: replaceEscNewline second (c :: rest)
  | c :: rest => c :: replaceEscNewline second rest

/-- One iteration of the `_parse_ass` dialogue loop (the line is already
stripped and known to start with `dialogue:`); `idx` is `len(entries) + 1`. -/
def parseAssLine (idx : Nat) (line : Str) : Option Entry := do
  let parts := splitCommaMax 9 line
  if parts.length < 10 then none
  else
    let text0 := removeAssOverrides (parts.getD 9 [])
    let text := cleanText (replaceEscNewline 'n' (replaceEscNewline 'N' text0))
    pure ⟨(idx : Int), parse_ass_time (parts.getD 1 []), parse_ass_time (parts.getD 2 []),
      text, some (parts.getD 3 [])⟩

/-- The fold inside `SubtitleParser._parse_ass`. -/
def parseAssLines : List Str → List Entry → List Entry
  | [], acc => acc.reverse
  | l :: rest, acc =>
    let line := strip l
    if startsWithL ("dialogue:".toList) (lowerStr line) then
      match parseAssLine (acc.length + 1) line with
      | some e => parseAssLines rest (e :: acc)
      | none => parseAssLines rest acc
    else parseAssLines rest acc

/-- `SubtitleParser._parse_ass`. -/
def parseAss (content : Str) : List Entry :=
  parseAssLines (splitChar '\n' content) []

/-- `SubtitleParser._parse_vtt_time` on a regex-matched group; `none`
models the exception swallowed by `_parse_vtt_block`'s bare `except`. -/
def vttHmsVal (hp mp : Str) : List Str → Option Nat
  | [s, ms] => do
    let hv ← pyNat? hp
    let mv ← pyNat? mp
    let sv ← pyNat? s
    let msv ← pyNat? ms
    pure ((hv * 3600 + mv * 60 + sv) * 1000 + msv)
  | _ => none

def vttMsVal (mp : Str) : List Str → Option Nat
  | [s, ms] => do
    let mv ← pyNat? mp
    let sv ← pyNat? s
    let msv ← pyNat? ms
    pure ((mv * 60 + sv) * 1000 + msv)
  | _ => none

def parse_vtt_time_core : List Str → Option Nat
  | [hp, mp, rest] => vttHmsVal hp mp (splitChar '.' rest)
  | [mp, rest] => vttMsVal mp (splitChar '.' rest)
  | _ => none

def parse_vtt_time (time_str : Str) : Option Nat :=
  parse_vtt_time_core (splitChar ':' time_str)

/-- Match `\d{2}:\d{2}:\d{2}\.\d{3}` at the head of `s` (VTT, dot only). -/
def matchVttTimePart (s : Str) : Option (Str × Str) :=
  match s with
  | a :: b :: c1 :: c :: d :: c2 :: e :: f :: dot :: g :: h :: i :: rest =>
    if a.isDigit && b.isDigit && c1 = ':' && c.isDigit && d.isDigit && c2 = ':' &&
       e.isDigit && f.isDigit && dot = '.' && g.isDigit && h.isDigit && i.isDigit then
      some ([a, b, c1, c, d, c2, e, f, dot, g, h, i], rest)
    else none
  | _ => none

/-- Match `\d{2}:\d{2}\.\d{3}` at the head of `s` (VTT without hours). -/
def matchVttShortTimePart (s : Str) : Option (Str × Str) :=
  match s with
  | a :: b :: c1 :: e :: f :: dot :: g :: h :: i :: rest =>
    if a.isDigit && b.isDigit && c1 = ':' && e.isDigit && f.isDigit && dot = '.' &&
       g.isDigit && h.isDigit && i.isDigit then
      some ([a, b, c1, e, f, dot, g, h, i], rest)
    else none
  | _ => none

/-- An anchored `g1 \s* --> \s* g2` match built from a single-timestamp matcher. -/
def matchArrowPair (part : Str → Option (Str × Str)) (s : Str) : Option (Str × Str) := do
  let (g1, r1) ← part s
  match r1.dropWhile pySpace with
  | '-' :: '-' :: '>' :: r3 =>
    let (g2, _) ← part (r3.dropWhile pySpace)
    pure (g1, g2)
  | _ => none

/-- The `for i, line in enumerate(lines): if '-->' in line: ... break` scan
of `_parse_vtt_block`: the first timing line and the lines after it. -/
def findArrowSplit : List Str → Option (Str × List Str)
  | [] => none
  | l :: rest =>
    if containsSub ("-->".toList) l then some (l, rest) else findArrowSplit rest

/-- The `if not match: try the short pattern` fallback of `_parse_vtt_block`. -/
def orElseOpt (a b : Option (Str × Str)) : Option (Str × Str) :=
  match a with
  | some r => some r
  | none => b

/-- `SubtitleParser._parse_vtt_block` (without the positional index). -/
def parseVttBlock (lines : List Str) : Option Entry := do
  let found ← findArrowSplit lines
  let timingLine := strip found.1
  let gs ←
    orElseOpt (matchArrowPair matchVttTimePart timingLine)
      (matchArrowPair matchVttShortTimePart timingLine)
  let start ← parse_vtt_time gs.1
  let stop ← parse_vtt_time gs.2
  let text := cleanText (joinWith '\n' found.2)
  pure ⟨0, start, stop, text, none⟩

/-- The cue grouping loop of `_parse_vtt`: nonempty (after strip) lines are
accumulated, a blank line closes the current block. -/
def vttBlocks : List Str → List Str → List (List Str)
  | [], acc => if acc.isEmpty then [] else [acc.reverse]
  | l :: rest, acc =>
    if (strip l).isEmpty then
      if acc.isEmpty then vttBlocks rest [] else acc.reverse :: vttBlocks rest []
    else vttBlocks rest (l :: acc)

/-- The header-skipping scan of `_parse_vtt`: the index of the first line
containing `-->` (Python leaves `start_idx = 0` when none is found). -/
def findArrowIdxGo (i : Nat) : List Str → Option Nat
  | [] => none
  | l :: rest =>
    if containsSub ("-->".toList) l then some i else findArrowIdxGo (i + 1) rest

/-- `SubtitleParser._parse_vtt`: skip to the first `-->` line, group cue
blocks, parse each, number the survivors 1-based. -/
def parseVtt (content : Str) : List Entry :=
  let lines := splitChar '\n' content
  let startIdx := (findArrowIdxGo 0 lines).getD 0
  numberFrom 0 ((vttBlocks (lines.drop startIdx) []).filterMap parseVttBlock)

/-- `SubtitleParser._detect_format`. -/
def detectFormat (content : Str) : Str :=
  let contentLower := lowerStr content
  if containsSub ("[script info]".toList) contentLower ||
     containsSub ("dialogue:".toList) contentLower then ("ass".toList)
  else if containsSub ("webvtt".toList) (contentLower.take 50) then ("vtt".toList)
  else ("srt".toList)

/-- `SubtitleParser.parse` on non-empty content with a resolved format. -/
def parseContent (content : Str) (format_hint : Option Str) : List Entry :=
  let fmt := match format_hint with
    | none => detectFormat content
    | some h => if h.isEmpty then detectFormat content else h
  if fmt = ("srt".toList) then parseSrt content
  else if fmt = ("ass".toList) || fmt = ("ssa".toList) then parseAss content
  else if fmt = ("vtt".toList) then parseVtt content
  else parseSrt content

/-- `SubtitleParser.parse`; `none` content models Python `None`, and the
`if not content` guard returns `[]` for both `None` and the empty string. -/
def parse (content : Option Str) (format_hint : Option Str) : List Entry :=
  match content with
  | none => []
  | some c => if c.isEmpty then [] else parseContent c format_hint

/-- `entries[i:i+batch_size]` chunking from the loop
`for batch_num, i in enumerate(range(0, len(entries), batch_size))`.
Python raises for step 0; a zero batch size yields no chunks here and
every theorem assumes `0 < batchSize`. -/
def chunkListGo (batchSize : Nat) : Nat → List Entry → List (List Entry)
  | _, [] => []
  | 0, l => [l]
  | fuel + 1, l => l.take batchSize :: chunkListGo batchSize fuel (l.drop batchSize)

def chunkList (batchSize : Nat) (l : List Entry) : List (List Entry) :=
  chunkListGo batchSize l.length l

/-- The inner copy loop `for j, entry in enumerate(batch)`: the entry text
is replaced when `j < len(translated_texts)`, kept otherwise. -/
def applyBatch : List Entry → List Str → List Entry
  | [], _ => []
  | e :: es, [] => e :: applyBatch es []
  | e :: es, t :: ts => { e with text := t } :: applyBatch es ts

/-- The batch loop of `translate_subtitle` on a job that reaches the end
checks: batch `k` of texts is answered by `tr k` (primary translator,
fallback, or the original texts on a tolerated failure). -/
def translateChunks (tr : Nat → List Str → List Str) : Nat → List (List Entry) → List Entry
  | _, [] => []
  | k, b :: bs => applyBatch b (tr k (b.map Entry.text)) ++ translateChunks tr (k + 1) bs

/-- `translated_entries` as accumulated over all batches. -/
def translateEntries (tr : Nat → List Str → List Str) (batchSize : Nat)
    (entries : List Entry) : List Entry :=
  translateChunks tr 0 (chunkList batchSize entries)

/-- `TranslatorService._make_disclaimer`: two fixed entries covering
0–4 s and 4–7 s; the addon version and service label are runtime inputs. -/
def make_disclaimer (version serviceLabel : Str) : List Entry :=
  [⟨0, 0, 4000,
    ("Subtitle Translator v".toList) ++ version ++ ['\n'] ++ ("Service: ".toList) ++ serviceLabel,
    none⟩,
   ⟨0, 4000, 7000, ("github.com/yeager/\nkodi-subtitle-translator".toList), none⟩]

/-- Lines 854–862 of `service.py`: shift the translated indices by the
number of disclaimer entries, renumber the disclaimer from 1, prepend. -/
def addDisclaimer (disclaimer translated : List Entry) : List Entry :=
  let n := disclaimer.length
  let shifted := translated.map (fun e => { e with index := e.index + (n : Int) })
  numberFrom 0 disclaimer ++ shifted

/-- The full entry list a `Done` job hands to `parser.generate`. -/
def jobOutputEntries (version serviceLabel : Str) (tr : Nat → List Str → List Str)
    (batchSize : Nat) (entries : List Entry) : List Entry :=
  addDisclaimer (make_disclaimer version serviceLabel)
    (translateEntries tr batchSize entries)

/-- `unchanged_count`: pairs of `zip(entries, translated_entries)` whose
stripped texts are equal. -/
def unchangedCount (orig trans : List Entry) : Nat :=
  ((orig.zip trans).filter (fun p => strip p.1.text = strip p.2.text)).length

/-- The fatal end-of-job errors of `translate_subtitle` (spec names). -/
inductive EndError
  | successRateTooLow
  | noProgress
deriving Repr, DecidableEq

/-- Lines 822–845 of `service.py`: `success_rate < 0.5` then
`unchanged_ratio > 0.95`, with the Python ratios modelled exactly
(`s/t < 0.5  ↔  2s < t`, `u/n > 0.95  ↔  20u > 19n`; a zero denominator
gives ratio 0 as in the source). -/
def endChecks (successfulBatches totalBatches : Nat) (orig trans : List Entry) :
    Option EndError :=
  if (if totalBatches = 0 then true else 2 * successfulBatches < totalBatches) then
    some .successRateTooLow
  else if (if orig.isEmpty then false
           else 19 * orig.length < 20 * unchangedCount orig trans) then
    some .noProgress
  else none

/-! ### `service.py` — publication -/

/-- One observable file-system operation performed through `xbmcvfs`. -/
inductive FsOp
  | write (path : Str) (content : Str)
  | rename (src dst : Str)
deriving Repr, DecidableEq

/-- `os.path.dirname` for `/`-separated paths. -/
def dirName (p : Str) : Str :=
  if containsSub ['/'] p then (splitChar '/' p).dropLast.foldr
    (fun a b => if b.isEmpty then a else a ++ ['/'] ++ b) []
  else []

/-- `os.path.basename` for `/`-separated paths. -/
def baseName (p : Str) : Str := (splitChar '/' p).getLastD []

/-- `os.path.splitext(...)[0]`: drop the extension after the last dot of the
base name, if any. -/
def splitExtStem (p : Str) : Str :=
  let parts := splitChar '.' p
  if parts.length ≤ 1 then p else joinWith '.' parts.dropLast

/-- `os.path.join(a, b)` for the cache paths (`/` separator). -/
def pathJoin (a b : Str) : Str := a ++ ['/'] ++ b

/-- `TranslatorService._normalize_path`: network paths use forward slashes. -/
def normalize_path (p : Str) : Str :=
  if startsWithL ("smb://".toList) p || startsWithL ("nfs://".toList) p then
    p.map (fun c => if c = '\\' then '/' else c)
  else p

/-- The configuration `save_subtitle` reads from the service object. -/
structure SaveCfg where
  cachePath : Str
  currentFile : Str
  targetLanguage : Str
  subtitleFormat : Str
  saveAlongside : Bool
deriving Repr, DecidableEq

/-- The cache artifact path `<cache>/<key>.<fmt>`. -/
def cacheFilePath (cfg : SaveCfg) (cacheKey : Str) : Str :=
  pathJoin cfg.cachePath (cacheKey ++ ['.'] ++ cfg.subtitleFormat)

/-- The metadata sidecar path `<cache>/<key>.json`. -/
def metaFilePath (cfg : SaveCfg) (cacheKey : Str) : Str :=
  pathJoin cfg.cachePath (cacheKey ++ (".json".toList))

/-- The alongside-video path `<video_stem>.<lang>.<fmt>`. -/
def alongsidePath (cfg : SaveCfg) : Str :=
  normalize_path (pathJoin (dirName cfg.currentFile)
    (splitExtStem (baseName cfg.currentFile) ++ ['.'] ++ cfg.targetLanguage ++ ['.'] ++
      cfg.subtitleFormat))

/-- `TranslatorService.save_subtitle` as its trace of file-system
operations: a direct whole-content write to the cache file, a direct
write of the metadata sidecar, and optionally a direct write alongside
the video.  `metaJson` stands for the `json.dumps({...})` payload. -/
def save_subtitle_trace (cfg : SaveCfg) (cacheKey content metaJson : Str) : List FsOp :=
  [FsOp.write (cacheFilePath cfg cacheKey) content,
   FsOp.write (metaFilePath cfg cacheKey) metaJson] ++
  (if cfg.saveAlongside then [FsOp.write (alongsidePath cfg) content] else [])

/-- End of the translate stage: run the checks of lines 822–845; only
when both pass is `save_subtitle` reached and the artifact published. -/
def finishTranslateJob (cfg : SaveCfg) (successfulBatches totalBatches : Nat)
    (orig trans : List Entry) (cacheKey content metaJson : Str) :
    Except EndError (List FsOp) :=
  match endChecks successfulBatches totalBatches orig trans with
  | some e => .error e
  | none => .ok (save_subtitle_trace cfg cacheKey content metaJson)

/-- Modelled from the spec: "Publication to the final destination MUST be
atomic: write to a temporary file, flush, then rename".  A trace is an
atomic publication of `finalPaths` when no write targets a final path
directly and each final path is produced by a rename from some
temporary. -/
def atomicPublication (trace : List FsOp) (finalPaths : List Str) : Prop :=
  (∀ op ∈ trace, ∀ p ∈ finalPaths, ∀ c, op ≠ FsOp.write p c) ∧
  (∀ p ∈ finalPaths, ∃ tmp, FsOp.rename tmp p ∈ trace)

/-! ### `service.py` — cache fingerprint (MD5) -/

/-- UTF-8 encoding of one character (`str.encode()`). -/
def utf8Char (c : Char) : List Nat :=
  let n := c.toNat
  if n < 0x80 then [n]
  else if n < 0x800 then [0xC0 + n / 64, 0x80 + n % 64]
  else if n < 0x10000 then [0xE0 + n / 4096, 0x80 + n / 64 % 64, 0x80 + n % 64]
  else [0xF0 + n / 262144, 0x80 + n / 4096 % 64, 0x80 + n / 64 % 64, 0x80 + n % 64]

/-- UTF-8 encoding of a string. -/
def utf8Encode (s : Str) : List Nat := s.flatMap utf8Char

/-- Truncation to 32 bits. -/
def m32 (n : Nat) : Nat := n % 4294967296

/-- 32-bit left rotation. -/
def rotl32 (x s : Nat) : Nat := m32 (x * 2 ^ s + m32 x / 2 ^ (32 - s))

/-- The 64 MD5 sine constants. -/
def md5K : List Nat :=
  [0xd76aa478, 0xe8c7b756, 0x242070db, 0xc1bdceee,
   0xf57c0faf, 0x4787c62a, 0xa8304613, 0xfd469501,
   0x698098d8, 0x8b44f7af, 0xffff5bb1, 0x895cd7be,
   0x6b901122, 0xfd987193, 0xa679438e, 0x49b40821,
   0xf61e2562, 0xc040b340, 0x265e5a51, 0xe9b6c7aa,
   0xd62f105d, 0x02441453, 0xd8a1e681, 0xe7d3fbc8,
   0x21e1cde6, 0xc33707d6, 0xf4d50d87, 0x455a14ed,
   0xa9e3e905, 0xfcefa3f8, 0x676f02d9, 0x8d2a4c8a,
   0xfffa3942, 0x8771f681, 0x6d9d6122, 0xfde5380c,
   0xa4beea44, 0x4bdecfa9, 0xf6bb4b60, 0xbebfbc70,
   0x289b7ec6, 0xeaa127fa, 0xd4ef3085, 0x04881d05,
   0xd9d4d039, 0xe6db99e5, 0x1fa27cf8, 0xc4ac5665,
   0xf4292244, 0x432aff97, 0xab9423a7, 0xfc93a039,
   0x655b59c3, 0x8f0ccc92, 0xffeff47d, 0x85845dd1,
   0x6fa87e4f, 0xfe2ce6e0, 0xa3014314, 0x4e0811a1,
   0xf7537e82, 0xbd3af235, 0x2ad7d2bb, 0xeb86d391]

/-- The 64 MD5 per-round shift amounts. -/
def md5S : List Nat :=
  [7, 12, 17, 22, 7, 12, 17, 22, 7, 12, 17, 22, 7, 12, 17, 22,
   5, 9, 14, 20, 5, 9, 14, 20, 5, 9, 14, 20, 5, 9, 14, 20,
   4, 11, 16, 23, 4, 11, 16, 23, 4, 11, 16, 23, 4, 11, 16, 23,
   6, 10, 15, 21, 6, 10, 15, 21, 6, 10, 15, 21, 6, 10, 15, 21]

/-- Bitwise complement on 32 bits. -/
def not32 (x : Nat) : Nat := 4294967295 - m32 x

/-- One MD5 round `i` acting on the state `(a, b, c, d)` with message words `M`. -/
def md5Round (M : List Nat) (st : Nat × Nat × Nat × Nat) (i : Nat) :
    Nat × Nat × Nat × Nat :=
  let (a, b, c, d) := st
  let f :=
    if i < 16 then Nat.lor (Nat.land b c) (Nat.land (not32 b) d)
    else if i < 32 then Nat.lor (Nat.land d b) (Nat.land (not32 d) c)
    else if i < 48 then Nat.xor b (Nat.xor c d)
    else Nat.xor c (Nat.lor b (not32 d))
  let g :=
    if i < 16 then i
    else if i < 32 then (5 * i + 1) % 16
    else if i < 48 then (3 * i + 5) % 16
    else (7 * i) % 16
  let tmp := m32 (a + f + md5K.getD i 0 + M.getD g 0)
  (d, m32 (b + rotl32 tmp (md5S.getD i 0)), b, c)

/-- Split a 64-byte chunk into 16 little-endian 32-bit words. -/
def md5Words : List Nat → List Nat
  | b0 :: b1 :: b2 :: b3 :: rest =>
    (b0 + 256 * b1 + 65536 * b2 + 16777216 * b3) :: md5Words rest
  | _ => []

/-- Process one 64-byte chunk. -/
def md5Chunk (st : Nat × Nat × Nat × Nat) (chunk : List Nat) : Nat × Nat × Nat × Nat :=
  let M := md5Words chunk
  let (a, b, c, d) := (List.range 64).foldl (md5Round M) st
  (m32 (st.1 + a), m32 (st.2.1 + b), m32 (st.2.2.1 + c), m32 (st.2.2.2 + d))

/-- Split a padded message into 64-byte chunks. -/
def chunks64 (l : List Nat) : List (List Nat) :=
  if l.isEmpty then [] else l.take 64 :: chunks64 (l.drop 64)
termination_by l.length
decreasing_by
  rename_i h
  simp only [List.isEmpty_iff] at h
  have : 0 < l.length := List.length_pos.mpr h
  simp only [List.length_drop]
  omega

/-- MD5 padding: `0x80`, zeros to 56 mod 64, then the bit length in 8
little-endian bytes. -/
def md5Pad (msg : List Nat) : List Nat :=
  let padLen := (55 + 64 - msg.length % 64) % 64 + 1
  let bitLen := 8 * msg.length
  msg ++ (128 :: List.replicate (padLen - 1) 0) ++
    (List.range 8).map (fun i => bitLen / 256 ^ i % 256)

/-- Little-endian bytes of one 32-bit word. -/
def wordLEBytes (w : Nat) : List Nat :=
  [w % 256, w / 256 % 256, w / 65536 % 256, w / 16777216 % 256]

/-- The 16-byte MD5 digest of a byte string. -/
def md5 (msg : List Nat) : List Nat :=
  let st := (chunks64 (md5Pad msg)).foldl md5Chunk
    (0x67452301, 0xefcdab89, 0x98badcfe, 0x10325476)
  wordLEBytes st.1 ++ wordLEBytes st.2.1 ++ wordLEBytes st.2.2.1 ++ wordLEBytes st.2.2.2

/-- Lowercase hex digit. -/
def hexDigit (n : Nat) : Char := if n < 10 then digitChar n else Char.ofNat (87 + n)

/-- `hashlib.md5(data).hexdigest()`. -/
def md5hex (msg : List Nat) : Str :=
  md5 msg >>= (fun b => [hexDigit (b / 16), hexDigit (b % 16)])

/-- `TranslatorService.get_cache_key`:
`md5(f"{current_file}|{source_sub.get('index', 0)}|{target_language}")`. -/
def get_cache_key (currentFile targetLanguage : Str) (sourceIndex : Int) : Str :=
  md5hex (utf8Encode (currentFile ++ ['|'] ++ intRepr sourceIndex ++ ['|'] ++ targetLanguage))

/-- `TranslatorService.get_cache_key_external`:
`md5(f"ext|{subtitle_path}|{target_language}")`. -/
def get_cache_key_external (subtitlePath targetLanguage : Str) : Str :=
  md5hex (utf8Encode (("ext|".toList) ++ subtitlePath ++ ['|'] ++ targetLanguage))

/-! ### `lib/translators.py` -/

/-- Outcome of one `BaseTranslator._request` call together with the
response post-processing inside the same `try` block: either some
exception was raised, or a list of translated strings was extracted. -/
inductive ReqOutcome
  | raises (msg : Str)
  | returns (translations : List Str)
deriving Repr, DecidableEq

/-- `DeepLTranslator.translate_batch`: missing key raises ValueError;
any exception inside the `try` returns the input texts unchanged. -/
def deepl_translate_batch (apiKey : Str) (net : ReqOutcome) (texts : List Str) :
    Except Str (List Str) :=
  if apiKey.isEmpty then .error ("DeepL API key required".toList)
  else match net with
    | .raises _ => .ok texts
    | .returns ts => .ok ts

/-- `MicrosoftTranslator.translate_batch`: same failure shape as DeepL. -/
def microsoft_translate_batch (apiKey : Str) (net : ReqOutcome) (texts : List Str) :
    Except Str (List Str) :=
  if apiKey.isEmpty then .error ("Microsoft API key required".toList)
  else match net with
    | .raises _ => .ok texts
    | .returns ts => .ok ts

/-- `GoogleTranslator.translate_batch`: same failure shape as DeepL. -/
def google_translate_batch (apiKey : Str) (net : ReqOutcome) (texts : List Str) :
    Except Str (List Str) :=
  if apiKey.isEmpty then .error ("Google API key required".toList)
  else match net with
    | .raises _ => .ok texts
    | .returns ts => .ok ts

/-- `LibreTranslateTranslator.translate` (no key requirement; a single
translation is requested, `response.get('translatedText', text)`). -/
def libre_translate (net : ReqOutcome) (text : Str) : Str :=
  match net with
  | .raises _ => text
  | .returns ts => ts.headD text

/-- `BaseTranslator.translate_batch` as inherited by LibreTranslate:
one `translate` call per text, in order; `net` gives the outcome of the
request issued for each text. -/
def libre_translate_batch (net : Str → ReqOutcome) (texts : List Str) : List Str :=
  texts.map (fun t => libre_translate (net t) t)

/-! ### `lib/mkv_streaming.py` -/

/-- `read_vint(reader)` with the reader modelled as the byte stream in
front of it; `none` models the `(None, 0)` error returns. -/
def read_vint (stream : List Nat) : Option (Nat × Nat) :=
  match stream with
  | [] => none
  | b :: rest =>
    if b = 0 then none
    else
      let length :=
        if 128 ≤ b then 1 else if 64 ≤ b then 2 else if 32 ≤ b then 3
        else if 16 ≤ b then 4 else if 8 ≤ b then 5 else if 4 ≤ b then 6
        else if 2 ≤ b then 7 else if 1 ≤ b then 8 else 9
      if 8 < length then none
      else
        let mask := 2 ^ (8 - length)
        let value := b % mask
        if rest.length < length - 1 then none
        else some ((rest.take (length - 1)).foldl (fun v byte => v * 256 + byte) value, length)

/-- `read_element_id(reader)`: marker retained, at most 4 bytes. -/
def read_element_id (stream : List Nat) : Option (Nat × Nat) :=
  match stream with
  | [] => none
  | b :: rest =>
    if b = 0 then none
    else
      let length :=
        if 128 ≤ b then 1 else if 64 ≤ b then 2 else if 32 ≤ b then 3
        else if 16 ≤ b then 4 else 5
      if 4 < length then none
      else if rest.length < length - 1 then none
      else some ((rest.take (length - 1)).foldl (fun v byte => v * 256 + byte) b, length)

/-- `read_block_header(data)`: VINT track number (≤ 4 bytes), big-endian
signed 16-bit timestamp offset, flags byte; `none` models the
`(None, 0, 0, 0)` error return. -/
def read_block_header (data : List Nat) : Option (Nat × Int × Nat × Nat) :=
  if data.length < 4 then none
  else
    let b := data.headD 0
    let length :=
      if 128 ≤ b then 1 else if 64 ≤ b then 2 else if 32 ≤ b then 3
      else if 16 ≤ b then 4 else 5
    if 4 < length ∨ data.length < length + 3 then none
    else
      let mask := 2 ^ (8 - length)
      let track := ((data.take length).drop 1).foldl (fun v byte => v * 256 + byte) (b % mask)
      let hi := data.getD length 0
      let lo := data.getD (length + 1) 0
      let raw := 256 * hi + lo
      let tsOffset : Int := if 32768 ≤ raw then (raw : Int) - 65536 else (raw : Int)
      let flags := data.getD (length + 2) 0
      some (track, tsOffset, flags, length + 3)

/-- A `SubtitleBlock` as stored by `_process_block` (payload kept as bytes;
the `.text` property decodes them). -/
structure SubBlock where
  trackNumber : Nat
  timestampMs : Int
  durationMs : Int
  data : List Nat
deriving Repr, DecidableEq

/-- The raw inputs `_process_block(data, cluster_timestamp, ..., duration)`
receives for one SimpleBlock or BlockGroup. -/
structure RawBlock where
  clusterTimestamp : Nat
  data : List Nat
  duration : Nat
deriving Repr, DecidableEq

/-- `MKVStreamingParser._process_block`: parse the header, drop foreign
tracks and laced blocks, convert times with the Python floor division
`//` (`Int.fdiv`), keep only nonempty payloads. -/
def process_block (timecodeScale : Nat) (targetTrackNum : Nat) (blk : RawBlock) :
    Option SubBlock :=
  match read_block_header blk.data with
  | none => none
  | some (track, tsOffset, flags, headerSize) =>
    if track ≠ targetTrackNum then none
    else if (flags / 2) % 4 ≠ 0 then none
    else
      let timestampMs := Int.fdiv (((blk.clusterTimestamp : Int) + tsOffset) * timecodeScale) 1000000
      let durationMs : Int := if blk.duration ≠ 0 then (blk.duration * timecodeScale / 1000000 : Nat) else 0
      let subData := blk.data.drop headerSize
      if subData.isEmpty then none
      else some ⟨track, timestampMs, durationMs, subData⟩

/-- The `self._subtitle_blocks` list accumulated over the processed blocks. -/
def extractBlocks (timecodeScale targetTrackNum : Nat) (raws : List RawBlock) :
    List SubBlock :=
  raws.filterMap (process_block timecodeScale targetTrackNum)

/-- `MKVStreamingParser._format_srt_time`: negative times clamp to 0. -/
def mkv_format_srt_time (ms : Int) : Str :=
  let ms := if ms < 0 then 0 else ms.toNat
  fmt02 (ms / 3600000) ++ [':'] ++ fmt02 (ms % 3600000 / 60000) ++ [':'] ++
    fmt02 (ms % 60000 / 1000) ++ [','] ++ fmt03 (ms % 1000)

/-- `MKVStreamingParser._ass_to_plain_text`. -/
def ass_to_plain_text (text : Str) : Str :=
  let parts := splitCommaMax 8 text
  let text := if 9 ≤ parts.length then parts.getD 8 [] else text
  strip (replaceEscNewline 'n' (replaceEscNewline 'N' (removeAssOverrides text)))

/-- The zero-duration fallback of `_reassemble_srt`: the
`self._subtitle_blocks[i + 1].timestamp_ms` lookup becomes the head of the
remaining blocks, and the last block gets `start + 3000`. -/
def nextEndMs (b : SubBlock) : List SubBlock → Int
  | next :: _ => next.timestampMs
  | [] => b.timestampMs + 3000

/-- The body of the `_reassemble_srt` loop.  `decodeText` stands for
Python's `bytes.decode('utf-8', errors='replace')` (the `.text`
property); the theorems hold for every decoder. -/
def reassembleSrtGo (decodeText : List Nat → Str) (isAss : Bool) :
    List SubBlock → Nat → List Str
  | [], _ => []
  | b :: rest, idx =>
    let text := strip (decodeText b.data)
    if text.isEmpty then reassembleSrtGo decodeText isAss rest idx
    else
      let text := if isAss then ass_to_plain_text text else text
      if isAss && text.isEmpty then reassembleSrtGo decodeText isAss rest idx
      else
        let endMs : Int :=
          if 0 < b.durationMs then b.timestampMs + b.durationMs else nextEndMs b rest
        natRepr (idx + 1) ::
          (mkv_format_srt_time b.timestampMs ++ (" --> ".toList) ++ mkv_format_srt_time endMs) ::
          text :: [] :: reassembleSrtGo decodeText isAss rest (idx + 1)

/-- `MKVStreamingParser._reassemble_srt`: the loop above joined by `\n`;
`isAss` is `track.format in ('ass', 'ssa')`. -/
def reassemble_srt (decodeText : List Nat → Str) (isAss : Bool)
    (blocks : List SubBlock) : Str :=
  joinWith '\n' (reassembleSrtGo decodeText isAss blocks 0)

/-- Modelled from the spec, §4.3 step 7: the start/end rule for the cues of
a reassembled track — `start = block.timestamp`; `end = start + duration`
when a duration is present, else the next block's start, else
`start + 3000`. -/
def specCueTimes : List SubBlock → List (Int × Int)
  | [] => []
  | b :: rest =>
    (b.timestampMs,
      if 0 < b.durationMs then b.timestampMs + b.durationMs else nextEndMs b rest) ::
      specCueTimes rest

/-! ### Proof-level views of the generated output -/

/-- Whether a string is free of adjacent newline pairs (so `re.split` on
`\n\n+` cannot cut it). -/
def noNN : Str → Bool
  | [] => true
  | [_] => true
  | c :: d :: rest => !(c = '\n' && d = '\n') && noNN (d :: rest)

/-- Blocks joined by blank lines, the shape `_generate_srt` produces
before its trailing newline. -/
def blocksJoinNN : List Str → Str
  | [] => []
  | [b] => b
  | b :: bs => b ++ '\n' :: '\n' :: blocksJoinNN bs

/-- The VTT timing line generated for one entry. -/
def vttTimingLine (e : Entry) : Str :=
  format_vtt_time e.start ++ (" --> ".toList) ++ format_vtt_time e.stop

/-! ### Spec-side predicates used by the claims -/

/-- Modelled from the spec: "`WEBVTT` header line → VTT" — the content's
first line is exactly `WEBVTT`. -/
def specWebvttHeaderLine (content : Str) : Bool :=
  (splitChar '\n' content).headD [] = ("WEBVTT".toList)

/-- The all-ones data-bits VINT encoding of width `n` (1 ≤ n ≤ 8): first
byte `2^(9-n) - 1`, then `n - 1` bytes `0xFF`. -/
def allOnesVint (n : Nat) : List Nat :=
  (2 ^ (9 - n) - 1) :: List.replicate (n - 1) 255

/-- Spec-side rendering of the reassembled SRT lines: blocks paired with
the §4.3 cue times, numbered from `idx + 1`. -/
def specCueLinesGo (decodeText : List Nat → Str) :
    Nat → List SubBlock → List (Int × Int) → List Str
  | _, [], _ => []
  | _, _ :: _, [] => []
  | idx, b :: rest, t :: ts =>
    natRepr (idx + 1) ::
      (mkv_format_srt_time t.1 ++ (" --> ".toList) ++ mkv_format_srt_time t.2) ::
      strip (decodeText b.data) :: [] :: specCueLinesGo decodeText (idx + 1) rest ts

/-- The expected SRT line list for a list of blocks none of which is
skipped (§4.3 step 7 and step 8, SRT branch). -/
def specCueLines (decodeText : List Nat → Str) (blocks : List SubBlock) : List Str :=
  specCueLinesGo decodeText 0 blocks (specCueTimes blocks)

deriving instance DecidableEq for Except

/-! ## Helper lemmas -/

theorem splitChar_ne_nil (sep : Char) (s : Str) : splitChar sep s ≠ [] := by
  match s with
  | [] => simp [splitChar]
  | c :: rest =>
    unfold splitChar
    split
    · simp
    · cases h : splitChar sep rest <;> simp

theorem splitChar_headD (sep : Char) (s : Str) :
    (splitChar sep s).headD [] = s.takeWhile (fun c => c ≠ sep) := by
  induction s with
  | nil => simp [splitChar]
  | cons c rest ih =>
    unfold splitChar
    by_cases hc : c = sep
    · simp [hc, List.takeWhile_cons]
    · simp only [if_neg hc]
      cases h : splitChar sep rest with
      | nil => exact absurd h (splitChar_ne_nil sep rest)
      | cons p ps =>
        simp only [List.headD_cons]
        have := ih
        rw [h] at this
        simp only [List.headD_cons] at this
        simp [List.takeWhile_cons, hc, this]

theorem startsWithL_append_self (p s : Str) : startsWithL p (p ++ s) = true := by
  induction p with
  | nil => simp [startsWithL]
  | cons c cs ih => simp [startsWithL, ih]

theorem containsSub_of_startsWith (needle hay : Str) (h : startsWithL needle hay = true) :
    containsSub needle hay = true := by
  unfold containsSub
  simp [h]

theorem hexPairs_length (l : List Nat) :
    (l.flatMap (fun b => [hexDigit (b / 16), hexDigit (b % 16)])).length = 2 * l.length := by
  induction l with
  | nil => simp
  | cons b t ih => simp [ih]; omega

theorem md5_length (msg : List Nat) : (md5 msg).length = 16 := by
  unfold md5 wordLEBytes
  simp

theorem md5hex_length (msg : List Nat) : (md5hex msg).length = 32 := by
  have h := hexPairs_length (md5 msg)
  have : md5hex msg = (md5 msg).flatMap (fun b => [hexDigit (b / 16), hexDigit (b % 16)]) := rfl
  rw [this, h, md5_length]

/-! ## Claim theorems -/

/-- C4: the claim says an all-ones size VINT is reported as a distinguished
"unknown length" value.  `read_vint` has no such value: the one-byte
all-ones VINT `0xFF` decodes to the plain number 127 — exactly what the
ordinary two-byte VINT `0x40 0x7F` also decodes to — so nothing
distinguishes "unknown" from a numeric size. -/
theorem c4_counterexample :
    read_vint (allOnesVint 1) = some (127, 1) ∧ read_vint [64, 127] = some (127, 2) := by
  decide

/-- C4 (amended): for every VINT width 1–8 whose data bits are all 1,
`read_vint` returns the plain numeric value `2^(7n) - 1`; no distinguished
unknown-length result exists (`none` is only returned for a zero lead
byte or a short read). -/
theorem c4_read_vint_all_ones (n : Nat) (h1 : 1 ≤ n) (h2 : n ≤ 8) :
    read_vint (allOnesVint n) = some (2 ^ (7 * n) - 1, n) := by
  interval_cases n <;> decide

theorem c4_read_vint_all_ones_witness :
    read_vint (allOnesVint 8) = some (2 ^ (7 * 8) - 1, 8) :=
  c4_read_vint_all_ones 8 (by decide) (by decide)

/-- C6: the claim says a `WEBVTT` header always wins and ASS markers only
count when it is absent.  `_detect_format` tests the ASS markers first:
this content has the `WEBVTT` header line yet is detected as ASS because a
cue contains `Dialogue:`. -/
theorem c6_counterexample :
    specWebvttHeaderLine (("WEBVTT\n\n00:00:00.000 --> 00:00:01.000\nDialogue: hi".toList)) =
      true ∧
    detectFormat (("WEBVTT\n\n00:00:00.000 --> 00:00:01.000\nDialogue: hi".toList)) =
      ("ass".toList) := by
  decide

/-- C6 (amended): `[Script Info]` / `Dialogue:` (case-insensitive, anywhere)
force ASS detection; only in their absence does a `WEBVTT` header line give
VTT (the code actually looks for `webvtt` anywhere in the first 50
lowered characters); with neither marker the content is treated as SRT. -/
theorem c6_detect_format (content : Str)
    (hass : (containsSub (("[script info]".toList)) (lowerStr content) ||
             containsSub (("dialogue:".toList)) (lowerStr content)) = false) :
    (specWebvttHeaderLine content = true → detectFormat content = ("vtt".toList)) ∧
    (containsSub (("webvtt".toList)) ((lowerStr content).take 50) = false →
      detectFormat content = ("srt".toList)) := by
  have hass1 := (Bool.or_eq_false_iff.mp hass).1
  have hass2 := (Bool.or_eq_false_iff.mp hass).2
  constructor
  · intro hweb
    have hw : (splitChar '\n' content).headD [] = ("WEBVTT".toList) := by
      have h := hweb
      unfold specWebvttHeaderLine at h
      exact of_decide_eq_true h
    rw [splitChar_headD] at hw
    have hp : content.takeWhile (fun c => c ≠ '\n') <+: content := List.takeWhile_prefix _
    rw [hw] at hp
    obtain ⟨r, hr⟩ := hp
    have hcl : (lowerStr content).take 50 = ("webvtt".toList) ++ (lowerStr r).take 44 := by
      rw [← hr]
      simp [lowerStr, Char.toLower, List.take_append]
    have hcontains : containsSub (("webvtt".toList)) ((lowerStr content).take 50) = true := by
      rw [hcl]
      exact containsSub_of_startsWith _ _ (startsWithL_append_self _ _)
    unfold detectFormat
    simp only [hass1, hass2, hcontains]
    simp
  · intro hnoweb
    unfold detectFormat
    simp only [hass1, hass2, hnoweb]
    simp

theorem c6_detect_format_witness :
    (specWebvttHeaderLine (("WEBVTT\n\n00:01.000 --> 00:02.000\nhello".toList)) = true →
      detectFormat (("WEBVTT\n\n00:01.000 --> 00:02.000\nhello".toList)) = ("vtt".toList)) ∧
    (containsSub (("webvtt".toList))
        ((lowerStr (("WEBVTT\n\n00:01.000 --> 00:02.000\nhello".toList))).take 50) = false →
      detectFormat (("WEBVTT\n\n00:01.000 --> 00:02.000\nhello".toList)) = ("srt".toList)) :=
  c6_detect_format (("WEBVTT\n\n00:01.000 --> 00:02.000\nhello".toList)) (by decide)

/-- C9: for the HTTP-backed providers, a request that raises after a
non-empty API key was supplied makes `translate_batch` (or `translate`)
return the input texts unchanged and in order — a dead network produces a
silent echo of the input. -/
theorem c9_dead_network_echoes_input (apiKey errMsg : Str) (texts : List Str)
    (hkey : apiKey.isEmpty = false) :
    deepl_translate_batch apiKey (.raises errMsg) texts = .ok texts ∧
    microsoft_translate_batch apiKey (.raises errMsg) texts = .ok texts ∧
    google_translate_batch apiKey (.raises errMsg) texts = .ok texts ∧
    libre_translate_batch (fun _ => .raises errMsg) texts = texts := by
  refine ⟨?_, ?_, ?_, ?_⟩ <;>
    simp [deepl_translate_batch, microsoft_translate_batch, google_translate_batch,
      libre_translate_batch, libre_translate, hkey]

theorem c9_dead_network_echoes_input_witness :
    deepl_translate_batch (("k".toList)) (.raises (("boom".toList)))
        [("a".toList), ("b".toList)] = .ok [("a".toList), ("b".toList)] ∧
    microsoft_translate_batch (("k".toList)) (.raises (("boom".toList)))
        [("a".toList), ("b".toList)] = .ok [("a".toList), ("b".toList)] ∧
    google_translate_batch (("k".toList)) (.raises (("boom".toList)))
        [("a".toList), ("b".toList)] = .ok [("a".toList), ("b".toList)] ∧
    libre_translate_batch (fun _ => .raises (("boom".toList)))
        [("a".toList), ("b".toList)] = [("a".toList), ("b".toList)] :=
  c9_dead_network_echoes_input (("k".toList)) (("boom".toList))
    [("a".toList), ("b".toList)] (by decide)

/-- C7: the claim says publication is atomic (temp file, then rename).
`save_subtitle` writes the content straight to the final cache path and,
when enabled, straight to the alongside path; the trace contains a direct
final-path write and no rename at all, so it is not an atomic
publication in the spec's sense. -/
theorem c7_publication_not_atomic (cfg : SaveCfg) (cacheKey content metaJson : Str) :
    FsOp.write (cacheFilePath cfg cacheKey) content ∈
      save_subtitle_trace cfg cacheKey content metaJson ∧
    (∀ op ∈ save_subtitle_trace cfg cacheKey content metaJson,
      ∀ src dst, op ≠ FsOp.rename src dst) ∧
    ¬ atomicPublication (save_subtitle_trace cfg cacheKey content metaJson)
        [cacheFilePath cfg cacheKey] := by
  refine ⟨?_, ?_, ?_⟩
  · simp [save_subtitle_trace]
  · intro op hop src dst
    unfold save_subtitle_trace at hop
    by_cases hsa : cfg.saveAlongside
    · simp only [hsa, if_pos] at hop
      simp only [List.mem_append, List.mem_cons, List.mem_singleton,
        List.not_mem_nil, or_false] at hop
      rcases hop with (h | h) | h <;> subst h <;> simp
    · simp only [hsa] at hop
      simp only [if_neg, List.append_nil, List.mem_cons, List.mem_singleton,
        List.not_mem_nil, or_false, Bool.false_eq_true, not_false_eq_true] at hop
      rcases hop with h | h <;> subst h <;> simp
  · intro hatomic
    exact absurd rfl (hatomic.1 (FsOp.write (cacheFilePath cfg cacheKey) content)
      (by simp [save_subtitle_trace]) (cacheFilePath cfg cacheKey) (by simp) content)

/-- C7 (claim, refuted at a concrete input): with a cache write at
`/cache/k.srt`, the published trace is exactly three direct writes. -/
theorem c7_counterexample :
    save_subtitle_trace
        ⟨("/cache".toList), ("/videos/movie.mkv".toList), ("sv".toList), ("srt".toList), true⟩
        (("k".toList)) (("1\n".toList)) (("{}".toList)) =
      [FsOp.write (("/cache/k.srt".toList)) (("1\n".toList)),
       FsOp.write (("/cache/k.json".toList)) (("{}".toList)),
       FsOp.write (("/videos/movie.sv.srt".toList)) (("1\n".toList))] := by
  decide

/-- C8: the cache fingerprint is deterministic in
`(source_uri, track identifier, target_language)`, is a 128-bit key
(32 hex characters), an embedded track is identified by its index and an
external file by its path behind the fixed `ext|` tag. -/
theorem c8_cache_key_deterministic (f f' lang lang' p p' : Str) (i i' : Int)
    (h1 : f = f') (h2 : lang = lang') (h3 : i = i') (h4 : p = p') :
    get_cache_key f lang i = get_cache_key f' lang' i' ∧
    get_cache_key_external p lang = get_cache_key_external p' lang' ∧
    (get_cache_key f lang i).length = 32 ∧
    (get_cache_key_external p lang).length = 32 ∧
    get_cache_key f lang i =
      md5hex (utf8Encode (f ++ ['|'] ++ intRepr i ++ ['|'] ++ lang)) ∧
    get_cache_key_external p lang =
      md5hex (utf8Encode (("ext|".toList) ++ p ++ ['|'] ++ lang)) := by
  subst h1 h2 h3 h4
  exact ⟨rfl, rfl, md5hex_length _, md5hex_length _, rfl, rfl⟩

theorem c8_cache_key_deterministic_witness :
    get_cache_key (("/v/x.mkv".toList)) (("sv".toList)) 2 =
      get_cache_key (("/v/x.mkv".toList)) (("sv".toList)) 2 ∧
    get_cache_key_external (("/s/x.srt".toList)) (("sv".toList)) =
      get_cache_key_external (("/s/x.srt".toList)) (("sv".toList)) ∧
    (get_cache_key (("/v/x.mkv".toList)) (("sv".toList)) 2).length = 32 ∧
    (get_cache_key_external (("/s/x.srt".toList)) (("sv".toList))).length = 32 ∧
    get_cache_key (("/v/x.mkv".toList)) (("sv".toList)) 2 =
      md5hex (utf8Encode (("/v/x.mkv".toList) ++ ['|'] ++ intRepr 2 ++ ['|'] ++ ("sv".toList))) ∧
    get_cache_key_external (("/s/x.srt".toList)) (("sv".toList)) =
      md5hex (utf8Encode (("ext|".toList) ++ ("/s/x.srt".toList) ++ ['|'] ++ ("sv".toList))) :=
  c8_cache_key_deterministic (("/v/x.mkv".toList)) (("/v/x.mkv".toList))
    (("sv".toList)) (("sv".toList)) (("/s/x.srt".toList)) (("/s/x.srt".toList)) 2 2
    rfl rfl rfl rfl

theorem applyBatch_length (b : List Entry) (ts : List Str) :
    (applyBatch b ts).length = b.length := by
  induction b generalizing ts with
  | nil => cases ts <;> simp [applyBatch]
  | cons e es ih => cases ts <;> simp [applyBatch, ih]

theorem applyBatch_map {α : Type} (f : Entry → α)
    (hf : ∀ e t, f { e with text := t } = f e) (b : List Entry) (ts : List Str) :
    (applyBatch b ts).map f = b.map f := by
  induction b generalizing ts with
  | nil => cases ts <;> simp [applyBatch]
  | cons e es ih => cases ts <;> simp [applyBatch, hf, ih]

theorem translateChunks_map {α : Type} (f : Entry → α)
    (hf : ∀ e t, f { e with text := t } = f e) (tr : Nat → List Str → List Str)
    (k : Nat) (L : List (List Entry)) :
    (translateChunks tr k L).map f = L.flatten.map f := by
  induction L generalizing k with
  | nil => simp [translateChunks]
  | cons b bs ih => simp [translateChunks, applyBatch_map f hf, ih]

theorem chunkListGo_flatten (batchSize : Nat) (hbs : 0 < batchSize) (fuel : Nat) :
    ∀ l : List Entry, l.length ≤ fuel → (chunkListGo batchSize fuel l).flatten = l := by
  induction fuel with
  | zero =>
    intro l hl
    have hnil : l = [] := List.length_eq_zero.mp (Nat.le_zero.mp hl)
    subst hnil
    rfl
  | succ fuel ih =>
    intro l hl
    cases l with
    | nil => rfl
    | cons e es =>
      simp only [chunkListGo, List.flatten_cons]
      rw [ih ((e :: es).drop batchSize)
        (by simp only [List.length_drop, List.length_cons] at *; omega)]
      exact List.take_append_drop _ _

theorem chunkList_flatten (batchSize : Nat) (hbs : 0 < batchSize) (l : List Entry) :
    (chunkList batchSize l).flatten = l :=
  chunkListGo_flatten batchSize hbs l.length l le_rfl

theorem translateEntries_map {α : Type} (f : Entry → α)
    (hf : ∀ e t, f { e with text := t } = f e) (tr : Nat → List Str → List Str)
    (batchSize : Nat) (hbs : 0 < batchSize) (entries : List Entry) :
    (translateEntries tr batchSize entries).map f = entries.map f := by
  unfold translateEntries
  rw [translateChunks_map f hf, chunkList_flatten batchSize hbs]

theorem translateEntries_length (tr : Nat → List Str → List Str)
    (batchSize : Nat) (hbs : 0 < batchSize) (entries : List Entry) :
    (translateEntries tr batchSize entries).length = entries.length := by
  have h := translateEntries_map (fun _ => ()) (fun _ _ => rfl) tr batchSize hbs entries
  have h1 := congrArg List.length h
  simpa using h1

/-- C1: the claim `|out| = |in|` with ascending 1-indexed entries fails:
the job prepends two disclaimer entries, so one input entry yields three
output entries whose starts are `[0, 4000, 1000]` — neither the claimed
length nor ascending order. -/
theorem c1_counterexample :
    (jobOutputEntries (("0.9.19".toList)) (("Google".toList)) (fun _ ts => ts) 10
        [⟨1, 1000, 2000, ("Hi".toList), none⟩]).length = 3 ∧
    (jobOutputEntries (("0.9.19".toList)) (("Google".toList)) (fun _ ts => ts) 10
        [⟨1, 1000, 2000, ("Hi".toList), none⟩]).map Entry.start = [0, 4000, 1000] := by
  decide

theorem range_index_shift (n : Nat) :
    (List.range (n + 2)).map (fun j : Nat => (j : Int) + 1) =
      1 :: 2 :: ((List.range n).map (fun i : Nat => (i : Int) + 1)).map (fun i => i + 2) := by
  induction n with
  | zero => decide
  | succ n ih =>
    have h1 : n + 1 + 2 = (n + 2) + 1 := by omega
    rw [h1, List.range_succ, List.map_append, ih]
    rw [List.range_succ, List.map_append, List.map_append]
    simp only [List.map_cons, List.map_nil, List.cons_append, List.nil_append]
    refine congrArg₂ List.cons rfl (congrArg₂ List.cons rfl (congrArg₂ (· ++ ·) rfl ?_))
    refine congrArg₂ List.cons ?_ rfl
    push_cast
    ring

/-- C1 (amended): a `Done` job outputs exactly `|in| + 2` entries — two
disclaimer entries (starts 0 and 4000 ms) followed by the translated
input entries in order; the output is indexed 1..n+2 whenever the input
was indexed 1..n, and its starts are ascending whenever the input starts
were ascending and at least 4000 ms. -/
theorem c1_output_shape (version serviceLabel : Str) (tr : Nat → List Str → List Str)
    (batchSize : Nat) (entries : List Entry) (hbs : 0 < batchSize) :
    (jobOutputEntries version serviceLabel tr batchSize entries).length =
      entries.length + 2 ∧
    (jobOutputEntries version serviceLabel tr batchSize entries).map Entry.start =
      0 :: 4000 :: entries.map Entry.start ∧
    (entries.map Entry.index =
        (List.range entries.length).map (fun i : Nat => (i : Int) + 1) →
      (jobOutputEntries version serviceLabel tr batchSize entries).map Entry.index =
        (List.range (entries.length + 2)).map (fun j : Nat => (j : Int) + 1)) ∧
    ((entries.map Entry.start).Pairwise (· ≤ ·) → (∀ e ∈ entries, 4000 ≤ e.start) →
      ((jobOutputEntries version serviceLabel tr batchSize entries).map Entry.start).Pairwise
        (· ≤ ·)) := by
  have hstart := translateEntries_map Entry.start (fun _ _ => rfl) tr batchSize hbs entries
  have hindex := translateEntries_map Entry.index (fun _ _ => rfl) tr batchSize hbs entries
  have hlen := translateEntries_length tr batchSize hbs entries
  have hshiftstart : ∀ L : List Entry,
      (L.map (fun e => { e with index := e.index + (2 : Int) })).map Entry.start =
        L.map Entry.start := by
    intro L
    induction L with
    | nil => rfl
    | cons e es ih => simp only [List.map_cons, ih]
  have hshiftindex : ∀ L : List Entry,
      (L.map (fun e => { e with index := e.index + (2 : Int) })).map Entry.index =
        (L.map Entry.index).map (fun i => i + 2) := by
    intro L
    induction L with
    | nil => rfl
    | cons e es ih => simp only [List.map_cons, ih]
  have hout : jobOutputEntries version serviceLabel tr batchSize entries =
      (⟨1, 0, 4000,
        ("Subtitle Translator v".toList) ++ version ++ ['\n'] ++ ("Service: ".toList) ++
          serviceLabel, none⟩ : Entry) ::
      (⟨2, 4000, 7000, ("github.com/yeager/\nkodi-subtitle-translator".toList), none⟩ : Entry) ::
      (translateEntries tr batchSize entries).map
        (fun e => { e with index := e.index + (2 : Int) }) := by
    simp only [jobOutputEntries, addDisclaimer, make_disclaimer, numberFrom]
    norm_num
  have hmapstart :
      (jobOutputEntries version serviceLabel tr batchSize entries).map Entry.start =
        0 :: 4000 :: entries.map Entry.start := by
    rw [hout]
    simp only [List.map_cons]
    rw [hshiftstart, hstart]
  refine ⟨?_, hmapstart, ?_, ?_⟩
  · rw [hout]
    simp [hlen]
  · intro hpos
    rw [hout]
    simp only [List.map_cons]
    rw [hshiftindex, hindex, hpos, range_index_shift]
  · intro hsorted hge
    rw [hmapstart]
    refine List.Pairwise.cons ?_ (List.Pairwise.cons ?_ hsorted)
    · intro b _
      exact Nat.zero_le b
    · intro b hb
      rcases List.mem_map.mp hb with ⟨e, he, rfl⟩
      exact hge e he

theorem c1_output_shape_witness :
    (jobOutputEntries (("1.0".toList)) (("Google".toList)) (fun _ ts => ts) 10
        [⟨1, 5000, 6000, ("Hi".toList), none⟩]).length =
      ([⟨1, 5000, 6000, ("Hi".toList), none⟩] : List Entry).length + 2 ∧
    (jobOutputEntries (("1.0".toList)) (("Google".toList)) (fun _ ts => ts) 10
        [⟨1, 5000, 6000, ("Hi".toList), none⟩]).map Entry.start =
      0 :: 4000 :: ([⟨1, 5000, 6000, ("Hi".toList), none⟩] : List Entry).map Entry.start ∧
    (([⟨1, 5000, 6000, ("Hi".toList), none⟩] : List Entry).map Entry.index =
        (List.range ([⟨1, 5000, 6000, ("Hi".toList), none⟩] : List Entry).length).map
          (fun i : Nat => (i : Int) + 1) →
      (jobOutputEntries (("1.0".toList)) (("Google".toList)) (fun _ ts => ts) 10
          [⟨1, 5000, 6000, ("Hi".toList), none⟩]).map Entry.index =
        (List.range (([⟨1, 5000, 6000, ("Hi".toList), none⟩] : List Entry).length + 2)).map
          (fun j : Nat => (j : Int) + 1)) ∧
    ((([⟨1, 5000, 6000, ("Hi".toList), none⟩] : List Entry).map Entry.start).Pairwise (· ≤ ·) →
      (∀ e ∈ ([⟨1, 5000, 6000, ("Hi".toList), none⟩] : List Entry), 4000 ≤ e.start) →
      ((jobOutputEntries (("1.0".toList)) (("Google".toList)) (fun _ ts => ts) 10
          [⟨1, 5000, 6000, ("Hi".toList), none⟩]).map Entry.start).Pairwise (· ≤ ·)) :=
  c1_output_shape (("1.0".toList)) (("Google".toList)) (fun _ ts => ts) 10
    [⟨1, 5000, 6000, ("Hi".toList), none⟩] (by decide)

/-- C2: the no-progress check fires only strictly above 95%: with 19 of
20 entries returned strip-identical (exactly 95%), the end checks pass and
the artifact is published, contrary to the claimed "at least 95% → fatal
`NoProgress`, no artifact". -/
theorem c2_counterexample :
    20 * unchangedCount
        (List.replicate 19 (⟨1, 0, 1000, ("same".toList), none⟩ : Entry) ++
          [⟨20, 0, 1000, ("hello".toList), none⟩])
        (List.replicate 19 (⟨1, 0, 1000, ("same".toList), none⟩ : Entry) ++
          [⟨20, 0, 1000, ("hej".toList), none⟩]) = 19 * 20 ∧
    finishTranslateJob
        ⟨("/cache".toList), ("/v/m.mkv".toList), ("sv".toList), ("srt".toList), false⟩ 2 2
        (List.replicate 19 (⟨1, 0, 1000, ("same".toList), none⟩ : Entry) ++
          [⟨20, 0, 1000, ("hello".toList), none⟩])
        (List.replicate 19 (⟨1, 0, 1000, ("same".toList), none⟩ : Entry) ++
          [⟨20, 0, 1000, ("hej".toList), none⟩])
        (("k".toList)) (("c".toList)) (("m".toList)) =
      .ok [FsOp.write (("/cache/k.srt".toList)) (("c".toList)),
           FsOp.write (("/cache/k.json".toList)) (("m".toList))] := by
  decide

/-- C2 (amended): on a job whose batch success rate passes the 50% check,
the translate stage ends in the fatal no-progress error — and publishes
nothing — exactly when strictly more than 95% of the entries compare
equal after stripping; at or below 95% the artifact is published. -/
theorem c2_no_progress_strict (cfg : SaveCfg) (successfulBatches totalBatches : Nat)
    (orig trans : List Entry) (cacheKey content metaJson : Str)
    (hne : orig ≠ []) (ht : totalBatches ≠ 0)
    (hrate : totalBatches ≤ 2 * successfulBatches) :
    (finishTranslateJob cfg successfulBatches totalBatches orig trans cacheKey content
        metaJson = .error .noProgress ↔
      19 * orig.length < 20 * unchangedCount orig trans) ∧
    (20 * unchangedCount orig trans ≤ 19 * orig.length →
      finishTranslateJob cfg successfulBatches totalBatches orig trans cacheKey content
        metaJson = .ok (save_subtitle_trace cfg cacheKey content metaJson)) := by
  have hmaster : endChecks successfulBatches totalBatches orig trans =
      (if 19 * orig.length < 20 * unchangedCount orig trans then some .noProgress
       else none) := by
    unfold endChecks
    have h2 : ¬(2 * successfulBatches < totalBatches) := by omega
    have hor : orig.isEmpty = false := by
      simp [List.isEmpty_iff, hne]
    simp [ht, h2, hor]
  unfold finishTranslateJob
  rw [hmaster]
  by_cases hc : 19 * orig.length < 20 * unchangedCount orig trans
  · rw [if_pos hc]
    constructor
    · simp [hc]
    · intro h
      exact absurd hc (by omega)
  · rw [if_neg hc]
    constructor
    · simp [hc]
    · intro _
      rfl

theorem c2_no_progress_strict_witness :
    (finishTranslateJob
        ⟨("/cache".toList), ("/v/m.mkv".toList), ("sv".toList), ("srt".toList), false⟩ 1 1
        [⟨1, 0, 1000, ("hello".toList), none⟩] [⟨1, 0, 1000, ("hej".toList), none⟩]
        (("k".toList)) (("c".toList)) (("m".toList)) = .error .noProgress ↔
      19 * ([⟨1, 0, 1000, ("hello".toList), none⟩] : List Entry).length <
        20 * unchangedCount [⟨1, 0, 1000, ("hello".toList), none⟩]
          [⟨1, 0, 1000, ("hej".toList), none⟩]) ∧
    (20 * unchangedCount [⟨1, 0, 1000, ("hello".toList), none⟩]
          [⟨1, 0, 1000, ("hej".toList), none⟩] ≤
        19 * ([⟨1, 0, 1000, ("hello".toList), none⟩] : List Entry).length →
      finishTranslateJob
        ⟨("/cache".toList), ("/v/m.mkv".toList), ("sv".toList), ("srt".toList), false⟩ 1 1
        [⟨1, 0, 1000, ("hello".toList), none⟩] [⟨1, 0, 1000, ("hej".toList), none⟩]
        (("k".toList)) (("c".toList)) (("m".toList)) =
        .ok (save_subtitle_trace
          ⟨("/cache".toList), ("/v/m.mkv".toList), ("sv".toList), ("srt".toList), false⟩
          (("k".toList)) (("c".toList)) (("m".toList)))) :=
  c2_no_progress_strict
    ⟨("/cache".toList), ("/v/m.mkv".toList), ("sv".toList), ("srt".toList), false⟩ 1 1
    [⟨1, 0, 1000, ("hello".toList), none⟩] [⟨1, 0, 1000, ("hej".toList), none⟩]
    (("k".toList)) (("c".toList)) (("m".toList)) (by decide) (by decide) (by decide)

theorem reassembleGo_spec (decodeText : List Nat → Str) (blocks : List SubBlock)
    (h : ∀ b ∈ blocks, (strip (decodeText b.data)).isEmpty = false) (idx : Nat) :
    reassembleSrtGo decodeText false blocks idx =
      specCueLinesGo decodeText idx blocks (specCueTimes blocks) := by
  induction blocks generalizing idx with
  | nil => rfl
  | cons b rest ih =>
    have hb := h b (by simp)
    have hrest : ∀ x ∈ rest, (strip (decodeText x.data)).isEmpty = false := by
      intro x hx
      exact h x (by simp [hx])
    have hstep : reassembleSrtGo decodeText false (b :: rest) idx =
        (if (strip (decodeText b.data)).isEmpty = true then
          reassembleSrtGo decodeText false rest idx
         else
          natRepr (idx + 1) ::
            (mkv_format_srt_time b.timestampMs ++ (" --> ".toList) ++
              mkv_format_srt_time
                (if 0 < b.durationMs then b.timestampMs + b.durationMs else nextEndMs b rest)) ::
            strip (decodeText b.data) :: [] ::
            reassembleSrtGo decodeText false rest (idx + 1)) := rfl
    rw [hstep, hb]
    simp only [Bool.false_eq_true, if_false]
    rw [ih hrest]
    rfl

/-- C3: every block kept by `_process_block` carries
`start = (cluster_timestamp + block_timestamp_offset) * timecode_scale // 10^6`
milliseconds, and `_reassemble_srt` ends a zero-duration cue at the next
block's start, or at `start + 3000` for the last block — the emitted lines
are exactly the spec-side rendering of those cue times. -/
theorem c3_block_timing :
    (∀ (timecodeScale targetTrackNum : Nat) (blk : RawBlock) (sb : SubBlock),
      process_block timecodeScale targetTrackNum blk = some sb →
      ∃ tsOffset flags headerSize,
        read_block_header blk.data = some (targetTrackNum, tsOffset, flags, headerSize) ∧
        sb.timestampMs =
          Int.fdiv (((blk.clusterTimestamp : Int) + tsOffset) * timecodeScale) 1000000) ∧
    (∀ (decodeText : List Nat → Str) (blocks : List SubBlock),
      (∀ b ∈ blocks, (strip (decodeText b.data)).isEmpty = false) →
      reassemble_srt decodeText false blocks = joinWith '\n' (specCueLines decodeText blocks)) := by
  constructor
  · intro scale target blk sb hpb
    unfold process_block at hpb
    cases hh : read_block_header blk.data with
    | none => rw [hh] at hpb; exact absurd hpb (by simp)
    | some quad =>
      obtain ⟨track, tsOffset, flags, headerSize⟩ := quad
      rw [hh] at hpb
      simp only at hpb
      split at hpb
      · exact absurd hpb (by simp)
      · split at hpb
        · exact absurd hpb (by simp)
        · split at hpb
          · exact absurd hpb (by simp)
          · rename_i htrack _ _
            push_neg at htrack
            refine ⟨tsOffset, flags, headerSize, by rw [htrack], ?_⟩
            have := Option.some.inj hpb
            rw [← this]
  · intro decodeText blocks h
    unfold reassemble_srt specCueLines
    rw [reassembleGo_spec decodeText blocks h 0]

theorem c3_block_timing_witness :
    (∃ tsOffset flags headerSize,
      read_block_header (([0x83, 0x00, 0x05, 0x00, 72, 105] : List Nat)) =
        some (3, tsOffset, flags, headerSize) ∧
      (⟨3, 1005, 0, [72, 105]⟩ : SubBlock).timestampMs =
        Int.fdiv (((1000 : Int) + tsOffset) * 1000000) 1000000) ∧
    reassemble_srt (fun bs => bs.map Char.ofNat) false
        [⟨3, 0, 0, [72, 105]⟩, ⟨3, 2500, 0, [87, 111]⟩] =
      joinWith '\n' (specCueLines (fun bs => bs.map Char.ofNat)
        [⟨3, 0, 0, [72, 105]⟩, ⟨3, 2500, 0, [87, 111]⟩]) :=
  ⟨c3_block_timing.1 1000000 3 ⟨1000, [0x83, 0x00, 0x05, 0x00, 72, 105], 0⟩
      ⟨3, 1005, 0, [72, 105]⟩ (by decide),
   c3_block_timing.2 (fun bs => bs.map Char.ofNat)
      [⟨3, 0, 0, [72, 105]⟩, ⟨3, 2500, 0, [87, 111]⟩] (by decide)⟩

/-! ## Digit and decimal-representation lemmas -/

theorem lstrip_eq_self (s : Str) (h : ∀ c, s.head? = some c → pySpace c = false) :
    lstrip s = s := by
  cases s with
  | nil => rfl
  | cons a t =>
    unfold lstrip
    rw [List.dropWhile_cons, h a rfl]
    simp

theorem rstrip_eq_self (s : Str) (h : ∀ c, s.getLast? = some c → pySpace c = false) :
    rstrip s = s := by
  unfold rstrip
  cases hr : s.reverse with
  | nil =>
    rw [List.reverse_eq_nil_iff] at hr
    subst hr
    rfl
  | cons c r' =>
    have hlast : s.getLast? = some c := by
      rw [← List.head?_reverse, hr, List.head?_cons]
    rw [List.dropWhile_cons, h c hlast]
    simp only [Bool.false_eq_true, if_false]
    rw [← hr, List.reverse_reverse]

theorem strip_eq_self (s : Str) (h1 : ∀ c, s.head? = some c → pySpace c = false)
    (h2 : ∀ c, s.getLast? = some c → pySpace c = false) : strip s = s := by
  unfold strip
  rw [lstrip_eq_self s h1, rstrip_eq_self s h2]

theorem head?_append_left {α : Type} {l r : List α} (h : l ≠ []) :
    (l ++ r).head? = l.head? := by
  cases l with
  | nil => exact absurd rfl h
  | cons a t => rfl

theorem getLast?_append_right {α : Type} {l r : List α} (h : r ≠ []) :
    (l ++ r).getLast? = r.getLast? := by
  rw [← List.head?_reverse, ← List.head?_reverse, List.reverse_append]
  exact head?_append_left (by simpa using h)

theorem getLast?_cons_ne {α : Type} {c : α} {l : List α} (h : l ≠ []) :
    (c :: l).getLast? = l.getLast? := by
  rw [show c :: l = [c] ++ l from rfl]
  exact getLast?_append_right h

/-! ## splitChar lemmas -/

theorem splitNNGo_false_single_eq (c : Char) :
    splitNNGo false [c] = if c = '\n' then [[c]] else consHead c (splitNNGo false []) := rfl

theorem splitNNGo_false_cons_cons (c d : Char) (rest' : Str) :
    splitNNGo false (c :: d :: rest') =
      if c = '\n' then
        (if d = '\n' then [] :: splitNNGo true rest'
         else consHead c (splitNNGo false (d :: rest')))
      else consHead c (splitNNGo false (d :: rest')) := rfl

theorem splitNNGo_true_cons (c : Char) (t : Str) :
    splitNNGo true (c :: t) =
      if c = '\n' then splitNNGo true t else consHead c (splitNNGo false t) := rfl

theorem splitNNGo_true_eq_false (s : Str) (h : s.head? ≠ some '\n') :
    splitNNGo true s = splitNNGo false s := by
  cases s with
  | nil => rfl
  | cons c t =>
    have hc : c ≠ '\n' := fun hc => h (by simp [hc])
    rw [splitNNGo_true_cons, if_neg hc]
    cases t with
    | nil => rw [splitNNGo_false_single_eq, if_neg hc]
    | cons d t' => rw [splitNNGo_false_cons_cons, if_neg hc]

theorem splitNNGo_false_single :
    ∀ b : Str, noNN b = true → b.getLast? ≠ some '\n' → splitNNGo false b = [b] := by
  intro b
  induction b with
  | nil => intro _ _; rfl
  | cons c t ih =>
    intro hnn hlast
    cases t with
    | nil =>
      have hc : c ≠ '\n' := fun hc => hlast (by simp [hc])
      rw [show splitNNGo false [c] =
        (if c = '\n' then [[c]] else consHead c (splitNNGo false [])) from rfl]
      rw [if_neg hc]
      rfl
    | cons d t' =>
      have hpair : ¬(c = '\n' ∧ d = '\n') := by
        intro ⟨hc, hd⟩
        unfold noNN at hnn
        simp [hc, hd] at hnn
      have htail : noNN (d :: t') = true := by
        unfold noNN at hnn
        simp only [Bool.and_eq_true] at hnn
        exact hnn.2
      have hrec : splitNNGo false (d :: t') = [d :: t'] :=
        ih htail (by rwa [getLast?_cons_ne (by simp)] at hlast)
      by_cases hc : c = '\n'
      · have hd : d ≠ '\n' := fun hd => hpair ⟨hc, hd⟩
        rw [show splitNNGo false (c :: d :: t') =
          (if c = '\n' then
            (if d = '\n' then [] :: splitNNGo true t'
             else consHead c (splitNNGo false (d :: t')))
           else consHead c (splitNNGo false (d :: t'))) from rfl]
        rw [if_pos hc, if_neg hd, hrec]
        rfl
      · rw [show splitNNGo false (c :: d :: t') =
          (if c = '\n' then
            (if d = '\n' then [] :: splitNNGo true t'
             else consHead c (splitNNGo false (d :: t')))
           else consHead c (splitNNGo false (d :: t'))) from rfl]
        rw [if_neg hc, hrec]
        rfl

theorem splitNNGo_false_append :
    ∀ b s : Str, noNN b = true → b.getLast? ≠ some '\n' → s.head? ≠ some '\n' →
      splitNNGo false (b ++ '\n' :: '\n' :: s) = b :: splitNNGo false s := by
  intro b
  induction b with
  | nil =>
    intro s _ _ hs
    rw [List.nil_append]
    rw [show splitNNGo false ('\n' :: '\n' :: s) =
      (if ('\n' : Char) = '\n' then
        (if ('\n' : Char) = '\n' then [] :: splitNNGo true s
         else consHead '\n' (splitNNGo false ('\n' :: s)))
       else consHead '\n' (splitNNGo false ('\n' :: s))) from rfl]
    rw [if_pos rfl, if_pos rfl, splitNNGo_true_eq_false s hs]
  | cons c t ih =>
    intro s hnn hlast hs
    cases t with
    | nil =>
      have hc : c ≠ '\n' := fun hc => hlast (by simp [hc])
      rw [List.singleton_append]
      rw [show splitNNGo false (c :: '\n' :: '\n' :: s) =
        (if c = '\n' then
          (if ('\n' : Char) = '\n' then [] :: splitNNGo true ('\n' :: s)
           else consHead c (splitNNGo false ('\n' :: '\n' :: s)))
         else consHead c (splitNNGo false ('\n' :: '\n' :: s))) from rfl]
      rw [if_neg hc]
      have h0 := ih s (by rfl) (by simp) hs
      rw [List.nil_append] at h0
      rw [h0]
      rfl
    | cons d t' =>
      have hpair : ¬(c = '\n' ∧ d = '\n') := by
        intro ⟨hc, hd⟩
        unfold noNN at hnn
        simp [hc, hd] at hnn
      have htail : noNN (d :: t') = true := by
        unfold noNN at hnn
        simp only [Bool.and_eq_true] at hnn
        exact hnn.2
      have hrec := ih s htail (by rwa [getLast?_cons_ne (by simp)] at hlast) hs
      rw [List.cons_append]
      by_cases hc : c = '\n'
      · have hd : d ≠ '\n' := fun hd => hpair ⟨hc, hd⟩
        rw [show splitNNGo false (c :: ((d :: t') ++ '\n' :: '\n' :: s)) =
          (if c = '\n' then
            (if d = '\n' then [] :: splitNNGo true (t' ++ '\n' :: '\n' :: s)
             else consHead c (splitNNGo false ((d :: t') ++ '\n' :: '\n' :: s)))
           else consHead c (splitNNGo false ((d :: t') ++ '\n' :: '\n' :: s))) from rfl]
        rw [if_pos hc, if_neg hd, hrec]
        rfl
      · rw [show splitNNGo false (c :: ((d :: t') ++ '\n' :: '\n' :: s)) =
          (if c = '\n' then
            (if d = '\n' then [] :: splitNNGo true (t' ++ '\n' :: '\n' :: s)
             else consHead c (splitNNGo false ((d :: t') ++ '\n' :: '\n' :: s)))
           else consHead c (splitNNGo false ((d :: t') ++ '\n' :: '\n' :: s))) from rfl]
        rw [if_neg hc, hrec]
        rfl

/-! ## Lemmas about joined blocks -/

theorem blocksJoinNN_ne_nil :
    ∀ Bs : List Str, Bs ≠ [] → (∀ b ∈ Bs, b ≠ []) → blocksJoinNN Bs ≠ [] := by
  intro Bs
  cases Bs with
  | nil => intro h _; exact absurd rfl h
  | cons b bs =>
    intro _ h
    cases bs with
    | nil => exact h b (by simp)
    | cons m ms =>
      rw [show blocksJoinNN (b :: m :: ms) = b ++ '\n' :: '\n' :: blocksJoinNN (m :: ms)
        from rfl]
      simp

theorem blocksJoinNN_head? :
    ∀ (Bs : List Str) (b : Str), Bs.head? = some b → b ≠ [] →
      (blocksJoinNN Bs).head? = b.head? := by
  intro Bs
  cases Bs with
  | nil => intro b h _; exact absurd h (by simp)
  | cons x bs =>
    intro b h hne
    rw [List.head?_cons, Option.some.injEq] at h
    subst h
    cases bs with
    | nil => rfl
    | cons m ms =>
      rw [show blocksJoinNN (x :: m :: ms) = x ++ '\n' :: '\n' :: blocksJoinNN (m :: ms)
        from rfl]
      exact head?_append_left hne

theorem blocksJoinNN_getLast? :
    ∀ (Bs : List Str) (b : Str), Bs.getLast? = some b → (∀ x ∈ Bs, x ≠ []) →
      (blocksJoinNN Bs).getLast? = b.getLast? := by
  intro Bs
  induction Bs with
  | nil => intro b h _; exact absurd h (by simp)
  | cons x bs ih =>
    intro b h hne
    cases bs with
    | nil =>
      simp only [List.getLast?_singleton, Option.some.injEq] at h
      subst h
      rfl
    | cons m ms =>
      rw [getLast?_cons_ne (by simp)] at h
      rw [show blocksJoinNN (x :: m :: ms) = x ++ '\n' :: '\n' :: blocksJoinNN (m :: ms)
        from rfl]
      have hj : blocksJoinNN (m :: ms) ≠ [] :=
        blocksJoinNN_ne_nil (m :: ms) (by simp) (fun y hy => hne y (by simp [hy]))
      rw [getLast?_append_right (by simp), getLast?_cons_ne (by simp [hj]), getLast?_cons_ne hj]
      exact ih b h (fun y hy => hne y (by simp [hy]))

theorem splitNN_blocksJoinNN :
    ∀ Bs : List Str,
      (∀ b ∈ Bs, b ≠ [] ∧ noNN b = true ∧ b.head? ≠ some '\n' ∧ b.getLast? ≠ some '\n') →
      Bs ≠ [] → splitNN (blocksJoinNN Bs) = Bs := by
  intro Bs
  induction Bs with
  | nil => intro _ h; exact absurd rfl h
  | cons b bs ih =>
    intro h _
    obtain ⟨hbne, hbnn, _, hblast⟩ := h b (by simp)
    cases bs with
    | nil => exact splitNNGo_false_single b hbnn hblast
    | cons m ms =>
      obtain ⟨hmne, _, hmhead, _⟩ := h m (by simp)
      rw [show blocksJoinNN (b :: m :: ms) = b ++ '\n' :: '\n' :: blocksJoinNN (m :: ms)
        from rfl]
      have hh : (blocksJoinNN (m :: ms)).head? ≠ some '\n' := by
        rw [blocksJoinNN_head? (m :: ms) m (by rfl) hmne]
        exact hmhead
      unfold splitNN
      rw [splitNNGo_false_append b _ hbnn hblast hh]
      rw [show splitNNGo false (blocksJoinNN (m :: ms)) = splitNN (blocksJoinNN (m :: ms))
        from rfl]
      rw [ih (fun x hx => h x (by simp [hx])) (by simp)]

/-! ## Timestamp formatting and parsing lemmas -/

theorem mem_of_head? {α : Type} {l : List α} {a : α} (h : l.head? = some a) : a ∈ l := by
  cases l with
  | nil => simp at h
  | cons x t =>
    rw [List.head?_cons] at h
    injection h with h
    rw [← h]
    exact List.mem_cons_self x t

theorem mem_of_getLast? {α : Type} {l : List α} {a : α} (h : l.getLast? = some a) : a ∈ l := by
  rw [← List.head?_reverse] at h
  have h2 := mem_of_head? h
  rwa [List.mem_reverse] at h2

/-- C10: `SubtitleParser.parse` is total on its public interface — `None`
content and empty content return `[]`, and on the SRT path the parse of a
well-split block list (nonempty blocks, no blank line inside a block, no
leading/trailing whitespace on a block) is exactly the `filterMap` of the
per-block parser, which yields `none` on a malformed block (skipping it)
instead of aborting. -/
theorem c10_parse_total :
    (∀ hint, parse none hint = []) ∧
    (∀ hint, parse (some []) hint = []) ∧
    (∀ blocks : List Str,
      (∀ b ∈ blocks, b ≠ [] ∧ noNN b = true ∧
        b.head?.all (fun c => !pySpace c) = true ∧
        b.getLast?.all (fun c => !pySpace c) = true) →
      parseSrt (blocksJoinNN blocks) = blocks.filterMap parseSrtBlock) := by
  refine ⟨fun _ => rfl, fun _ => rfl, ?_⟩
  intro blocks hb
  have hhead : ∀ b ∈ blocks, ∀ c, b.head? = some c → pySpace c = false := by
    intro b hbm c hc
    have hall := (hb b hbm).2.2.1
    rw [hc] at hall
    simpa using hall
  have hlast : ∀ b ∈ blocks, ∀ c, b.getLast? = some c → pySpace c = false := by
    intro b hbm c hc
    have hall := (hb b hbm).2.2.2
    rw [hc] at hall
    simpa using hall
  cases blocks with
  | nil => decide
  | cons b0 bs =>
    have hbs' : ∀ b ∈ (b0 :: bs), b ≠ [] ∧ noNN b = true ∧
        b.head? ≠ some '\n' ∧ b.getLast? ≠ some '\n' := by
      intro b hbm
      refine ⟨(hb b hbm).1, (hb b hbm).2.1, fun hh => ?_, fun hh => ?_⟩
      · exact absurd (hhead b hbm '\n' hh) (by decide)
      · exact absurd (hlast b hbm '\n' hh) (by decide)
    have hstrip : strip (blocksJoinNN (b0 :: bs)) = blocksJoinNN (b0 :: bs) := by
      apply strip_eq_self
      · intro c hc
        rw [blocksJoinNN_head? (b0 :: bs) b0 (List.head?_cons) (hb b0 (by simp)).1] at hc
        exact hhead b0 (by simp) c hc
      · intro c hc
        have hsome : ((b0 :: bs).getLast?).isSome = true :=
          List.getLast?_isSome.mpr (by simp)
        obtain ⟨bL, hgl⟩ := Option.isSome_iff_exists.mp hsome
        rw [blocksJoinNN_getLast? _ bL hgl (fun b hbm => (hb b hbm).1)] at hc
        exact hlast bL (mem_of_getLast? hgl) c hc
    unfold parseSrt
    rw [hstrip, splitNN_blocksJoinNN _ hbs' (by simp)]

theorem c10_parse_total_witness :
    parseSrt (blocksJoinNN
      [("1".toList) ++ '\n' :: ("00:00:00,000 --> 00:00:01,000".toList) ++
        '\n' :: ("Hi".toList),
       ("garbage".toList)]) = [(⟨1, 0, 1000, ("Hi".toList), none⟩ : Entry)] := by
  rw [c10_parse_total.2.2 _ (by decide)]
  decide

end KST
